import Mathlib

/-!
Verification development for the vault-mcp credential broker.

The repository is TypeScript; this file is a shallow embedding of the parts
of the code the claims talk about:

* the hash-chained audit log (src/audit/logger.ts),
* the encrypted credential store (src/store/encrypted-store.ts),
* the master-key provider (src/store/keychain.ts),
* the tool surface (src/tools/vault-*.ts),
* the entry-form gateway's pending-token handshake (src/dashboard/server.ts).

Conventions of the embedding:

* Parsed JSON objects with string values (the shape of every audit entry the
  program writes) are association lists, `Obj`.
* SHA-256 is an explicit parameter `sha : String → String`; nothing in the
  chain-maintenance code depends on its internals, and the integrity argument
  is made relative to explicit no-collision hypotheses on the concrete inputs
  involved (which is exactly what the property rests on for real SHA-256).
* AES-256-GCM is modelled symbolically: a ciphertext is an opaque term
  carrying the key it was produced under, the (fresh) IV, and the plaintext;
  decryption under the same key returns the plaintext and fails otherwise.
  This models the authenticated round-trip / wrong-key-rejection contract.
* Ambient effects (clock, randomUUID, randomBytes, the filesystem, fetch, the
  CDP browser bridge) are passed in explicitly: counters in the state for the
  random values, `now` arguments for timestamps, and oracle functions for the
  network and the browser.
* JavaScript truthiness on optional strings (empty string is falsy) is
  modelled by the `truthy` and `jsOr` helpers.
-/

/-- An object parsed from JSON whose values are all strings — the shape of
every audit entry this program writes (assoc list, insertion order kept). -/
abbrev Obj := List (String × String)

/-- Property access `o[key]` on a parsed object: the first binding wins
(the objects this program builds have pairwise distinct keys). -/
def olookup : Obj → String → Option String
  | [], _ => none
  | (k, v) :: rest, key => if k = key then some v else olookup rest key

/-- Rest-destructuring minus one key: the JS pattern with hash removed and
the remaining fields kept in insertion order. -/
def oerase : Obj → String → Obj
  | [], _ => []
  | (k, v) :: rest, key => if k = key then oerase rest key else (k, v) :: oerase rest key

/-- JS truthiness of an optional string: undefined and the empty string are
falsy, everything else truthy. -/
def truthy : Option String → Bool
  | none => false
  | some s => s ≠ ""

/-- The JS idiom a or-else b on optional strings (empty string falls through). -/
def jsOr (a : Option String) (b : String) : String :=
  match a with
  | none => b
  | some v => if v = "" then b else v

/-- String coercion of a possibly-undefined JS value, as it appears inside a
template literal or a string concatenation. -/
def jsStr (a : Option String) : String := a.getD "undefined"

/-- Lower-case hex digit. -/
def hexDigit (n : Nat) : Char :=
  if n < 10 then Char.ofNat (48 + n) else Char.ofNat (87 + n)

/-- JSON.stringify escaping of one character inside a string literal. -/
def escapeChar (c : Char) : List Char :=
  if c = '"' then ['\\', '"']
  else if c = '\\' then ['\\', '\\']
  else if c = '\n' then ['\\', 'n']
  else if c = '\r' then ['\\', 'r']
  else if c = '\t' then ['\\', 't']
  else if c.toNat = 8 then ['\\', 'b']
  else if c.toNat = 12 then ['\\', 'f']
  else if c.toNat < 32 then ['\\', 'u', '0', '0', hexDigit (c.toNat / 16), hexDigit (c.toNat % 16)]
  else [c]

/-- JSON.stringify of a string value. -/
def jsonQuote (s : String) : String :=
  ⟨'"' :: List.flatten (s.data.map escapeChar) ++ ['"']⟩

/-- JSON.stringify of a flat string-valued object: fields in insertion order,
no whitespace — the exact bytes the logger appends and later re-hashes. -/
def stringifyFlatObj (o : Obj) : String :=
  "\x7b" ++ String.intercalate "," (o.map fun kv => jsonQuote kv.1 ++ ":" ++ jsonQuote kv.2) ++ "\x7d"

/-- computeHash of src/audit/logger.ts: the digest of the previous hash
concatenated with the JSON serialization of the entry without its hash field.
The digest function itself is a parameter. -/
def computeHash (sha : String → String) (prevHash : String) (entry : Obj) : String :=
  sha (prevHash ++ stringifyFlatObj entry)

/-- String.prototype.padStart with a pad character. -/
def padStart (len : Nat) (c : Char) (s : String) : String :=
  ⟨List.replicate (len - s.length) c⟩ ++ s

/-- formatEventId of src/audit/logger.ts. -/
def formatEventId (n : Nat) : String :=
  "evt_" ++ padStart 3 '0' (toString n)

/-- The arguments of one AuditLogger.log call, together with the timestamp
the ambient clock produces during that call. -/
structure LogReq where
  action : String
  credentialId : String
  result : String
  botId : Option String
  details : Option String
  timestamp : String
deriving DecidableEq, Repr

/-- The previous hash AuditLogger.log reads from the tail of the log
(the literal genesis on an empty log). -/
def lastHashOf (entries : List Obj) : String :=
  match entries.getLast? with
  | none => "genesis"
  | some e => jsStr (olookup e "hash")

/-- The entry-without-hash object AuditLogger.log builds: the six fixed
fields in literal order, then botId and details only when defined. -/
def preEntry (req : LogReq) (eventId prevHash : String) : Obj :=
  [("eventId", eventId), ("timestamp", req.timestamp), ("action", req.action),
   ("credentialId", req.credentialId), ("result", req.result), ("prevHash", prevHash)]
  ++ (match req.botId with | some b => [("botId", b)] | none => [])
  ++ (match req.details with | some d => [("details", d)] | none => [])

/-- One AuditLogger.log call: read the tail, synthesize the entry, hash it,
append it. Returns the new entry and the grown log. -/
def logStep (sha : String → String) (entries : List Obj) (req : LogReq) : Obj × List Obj :=
  let prevHash := lastHashOf entries
  let eventId := formatEventId (entries.length + 1)
  let pre := preEntry req eventId prevHash
  let h := computeHash sha prevHash pre
  let entry := pre ++ [("hash", h)]
  (entry, entries ++ [entry])

/-- A sequence of sequential AuditLogger.log calls starting from the empty log. -/
def runLog (sha : String → String) (reqs : List LogReq) : List Obj :=
  reqs.foldl (fun es r => (logStep sha es r).2) []

/-- AuditLogger.getEntries' optional filter by credentialId (the siteId
argument is tested with JS truthiness). -/
def getEntriesFilter (entries : List Obj) (siteId : Option String) : List Obj :=
  if truthy siteId then
    entries.filter (fun e => olookup e "credentialId" = some (siteId.getD ""))
  else entries

/-- The result record of AuditLogger.verifyChain. -/
structure VerifyResult where
  valid : Bool
  brokenAt : Option Nat
  totalEntries : Nat
deriving DecidableEq, Repr

/-- The scan of verifyChain: at each position compare prevHash with the
expected one (genesis at the head, else the previous entry's hash field) and
recompute the hash over the entry with its hash field removed; stop at the
first mismatch. -/
def verifyFrom (sha : String → String) : Option String → Nat → List Obj → Option Nat
  | _, _, [] => none
  | expectedPrev, i, e :: rest =>
    if olookup e "prevHash" ≠ expectedPrev then some i
    else if olookup e "hash"
        ≠ some (computeHash sha (jsStr (olookup e "prevHash")) (oerase e "hash")) then some i
    else verifyFrom sha (olookup e "hash") (i + 1) rest

/-- AuditLogger.verifyChain on an already-parsed entry sequence. -/
def verifyChainL (sha : String → String) (entries : List Obj) : VerifyResult :=
  match verifyFrom sha (some "genesis") 0 entries with
  | none => ⟨true, none, entries.length⟩
  | some i => ⟨false, some i, entries.length⟩

/-- Whitespace as far as both JSON.parse and String.prototype.trim care here. -/
def isWsChar (c : Char) : Bool :=
  c = ' ' || c = '\n' || c = '\t' || c = '\r'

/-- Drop leading whitespace. -/
def skipWs (l : List Char) : List Char := l.dropWhile isWsChar

/-- String.prototype.trim on a character list. -/
def trimChars (l : List Char) : List Char :=
  ((l.dropWhile isWsChar).reverse.dropWhile isWsChar).reverse

/-- String.prototype.split with separator newline. -/
def splitOnNl : List Char → List (List Char)
  | [] => [[]]
  | c :: rest =>
    let r := splitOnNl rest
    if c = '\n' then [] :: r
    else match r with
      | [] => [[c]]
      | h :: t => (c :: h) :: t

/-- Hex digit value, both cases. -/
def hexVal (c : Char) : Option Nat :=
  if 48 ≤ c.toNat && c.toNat ≤ 57 then some (c.toNat - 48)
  else if 97 ≤ c.toNat && c.toNat ≤ 102 then some (c.toNat - 87)
  else if 65 ≤ c.toNat && c.toNat ≤ 70 then some (c.toNat - 55)
  else none

/-- JSON string-literal body (after the opening quote): returns the decoded
characters and the input after the closing quote. Fuel bounds the recursion. -/
def parseStringBody : Nat → List Char → Option (List Char × List Char)
  | 0, _ => none
  | _ + 1, [] => none
  | fuel + 1, c :: rest =>
    if c = '"' then some ([], rest)
    else if c = '\\' then
      match rest with
      | [] => none
      | e :: rest2 =>
        let esc : Option (Char × List Char) :=
          if e = '"' then some ('"', rest2)
          else if e = '\\' then some ('\\', rest2)
          else if e = '/' then some ('/', rest2)
          else if e = 'n' then some ('\n', rest2)
          else if e = 't' then some ('\t', rest2)
          else if e = 'r' then some ('\r', rest2)
          else if e = 'b' then some (Char.ofNat 8, rest2)
          else if e = 'f' then some (Char.ofNat 12, rest2)
          else if e = 'u' then
            match rest2 with
            | a :: b :: c2 :: d :: rest3 =>
              match hexVal a, hexVal b, hexVal c2, hexVal d with
              | some x, some y, some z, some w =>
                some (Char.ofNat (((x * 16 + y) * 16 + z) * 16 + w), rest3)
              | _, _, _, _ => none
            | _ => none
          else none
        match esc with
        | none => none
        | some (ch, r2) => (parseStringBody fuel r2).map (fun sr => (ch :: sr.1, sr.2))
    else if c.toNat < 32 then none
    else (parseStringBody fuel rest).map (fun sr => (c :: sr.1, sr.2))

/-- The members of a JSON object of string values: a comma-separated list of
string-colon-string pairs up to and including the closing brace. -/
def parseMembers : Nat → List Char → Option (Obj × List Char)
  | 0, _ => none
  | fuel + 1, input =>
    match skipWs input with
    | '"' :: rest =>
      match parseStringBody (rest.length + 1) rest with
      | none => none
      | some (key, r1) =>
        match skipWs r1 with
        | ':' :: r2 =>
          match skipWs r2 with
          | '"' :: r3 =>
            match parseStringBody (r3.length + 1) r3 with
            | none => none
            | some (val, r4) =>
              match skipWs r4 with
              | d :: r5 =>
                if d = ',' then
                  (parseMembers fuel r5).map (fun or6 => ((⟨key⟩, ⟨val⟩) :: or6.1, or6.2))
                else if d = Char.ofNat 125 then some ([(⟨key⟩, ⟨val⟩)], r5)
                else none
              | [] => none
          | _ => none
        | _ => none
    | _ => none

/-- JSON.parse specialised to the flat string-valued objects this program
writes, one per audit line; any other input is a parse failure, as a thrown
SyntaxError is for JSON.parse. -/
def parseFlatObj (l : List Char) : Option Obj :=
  match skipWs l with
  | c :: rest =>
    if c = Char.ofNat 123 then
      match skipWs rest with
      | d :: r2 =>
        if d = Char.ofNat 125 then (if skipWs r2 = [] then some [] else none)
        else
          match parseMembers (rest.length + 1) rest with
          | some (o, r3) => if skipWs r3 = [] then some o else none
          | none => none
      | [] => none
    else none
  | [] => none

/-- The message of the SyntaxError JSON.parse throws on a malformed line. -/
def jsonParseError : String := "SyntaxError: Unexpected token in JSON"

/-- AuditLogger.getEntries on the raw file content: trim, split on newlines,
drop empty lines, JSON.parse each line. A malformed line makes the whole call
throw (only a failed file read is caught and mapped to the empty list). -/
def getEntriesD (content : String) : Except String (List Obj) :=
  let lines := (splitOnNl (trimChars content.data)).filter (fun l => l ≠ [])
  lines.mapM (fun l =>
    match parseFlatObj l with
    | some o => Except.ok o
    | none => Except.error jsonParseError)

/-- AuditLogger.verifyChain run against the on-disk bytes: parse the file,
then scan the chain. A parse failure propagates as the thrown exception. -/
def verifyChainOnFile (sha : String → String) (content : String) : Except String VerifyResult :=
  (getEntriesD content).map (fun entries => verifyChainL sha entries)

/-- Serialize a log back to the on-disk form: one JSON line plus newline per
entry, in order — the accumulated appendFile payloads. -/
def logFile (entries : List Obj) : String :=
  String.join (entries.map (fun e => stringifyFlatObj e ++ "\n"))

/-- A trivially collision-free stand-in digest used to evaluate the model on
concrete inputs (the chain code never inspects the digest's internals). -/
def shaId : String → String := fun s => s

/-- The closed set of service types. -/
inductive ServiceType
  | web_login
  | api_key
deriving DecidableEq, Repr

/-- The string a ServiceType serializes to. -/
def ServiceType.toStr : ServiceType → String
  | .web_login => "web_login"
  | .api_key => "api_key"

/-- The three CSS selectors of a web_login credential. -/
structure Selectors where
  email : String
  password : String
  submit : String
deriving DecidableEq, Repr

/-- The decrypted secret payload (all fields optional, as in the TS type). -/
structure PlainCredentialData where
  email : Option String
  password : Option String
  apiKey : Option String
  headers : Option Obj
deriving DecidableEq, Repr

/-- Symbolic AES-256-GCM blob: base64(iv plus ciphertext plus tag) is opaque
to every consumer, so it is modelled as a term carrying the encryption key,
the fresh IV and the plaintext. -/
structure EncBlob where
  key : String
  iv : Nat
  data : PlainCredentialData
deriving DecidableEq, Repr

/-- CredentialMetadata of src/store/encrypted-store.ts. -/
structure CredentialMetadata where
  id : String
  siteId : String
  serviceType : ServiceType
  loginUrl : Option String
  selectors : Option Selectors
  active : Bool
  createdAt : String
  updatedAt : String
deriving DecidableEq, Repr

/-- StoredCredential: the metadata plus the encrypted payload. -/
structure StoredCredential extends CredentialMetadata where
  encryptedData : EncBlob
deriving DecidableEq, Repr

/-- toMetadata of src/store/encrypted-store.ts: rest-destructuring that drops
the encryptedData field entirely. -/
def toMetadata (s : StoredCredential) : CredentialMetadata := s.toCredentialMetadata

/-- The in-memory store plus its effect context: the resolved master key, the
counters standing for randomBytes and randomUUID draws, and the history of
full-file writes performed by save (each element is the vector written). -/
structure StoreState where
  masterKey : String
  ivCtr : Nat
  uuidCtr : Nat
  credentials : List StoredCredential
  writes : List (List StoredCredential)
deriving DecidableEq, Repr

/-- A fresh empty store under a given master key. -/
def mkStore (key : String) : StoreState :=
  ⟨key, 0, 0, [], []⟩

/-- encrypt of src/store/encrypted-store.ts: fresh IV, AES-256-GCM under the
resolved master key (symbolic). -/
def encrypt (s : StoreState) (data : PlainCredentialData) : EncBlob × StoreState :=
  (⟨s.masterKey, s.ivCtr, data⟩, { s with ivCtr := s.ivCtr + 1 })

/-- decrypt of src/store/encrypted-store.ts: authenticated decryption — the
wrong key (or a tampered blob) throws. -/
def decrypt (blob : EncBlob) (key : String) : Except String PlainCredentialData :=
  if blob.key = key then Except.ok blob.data
  else Except.error "Unsupported state or unable to authenticate data"

/-- EncryptedStore.save: rewrite the whole credentials file. -/
def StoreState.save (s : StoreState) : StoreState :=
  { s with writes := s.writes ++ [s.credentials] }

/-- Array.prototype.find by site identifier. -/
def findCred (siteId : String) : List StoredCredential → Option StoredCredential
  | [] => none
  | c :: rest => if c.siteId = siteId then some c else findCred siteId rest

/-- Array.prototype.findIndex by site identifier. -/
def findCredIdx (siteId : String) : List StoredCredential → Nat → Option Nat
  | [], _ => none
  | c :: rest, i => if c.siteId = siteId then some i else findCredIdx siteId rest (i + 1)

/-- Array.prototype.splice(idx, 1). -/
def spliceAt : Nat → List StoredCredential → List StoredCredential
  | _, [] => []
  | 0, _ :: rest => rest
  | n + 1, c :: rest => c :: spliceAt n rest

/-- In-place mutation of the element at an index. -/
def modifyAt (n : Nat) (f : StoredCredential → StoredCredential) :
    List StoredCredential → List StoredCredential
  | [] => []
  | c :: rest =>
    match n with
    | 0 => f c :: rest
    | m + 1 => c :: modifyAt m f rest

/-- EncryptedStore.addCredential: fresh UUID and timestamps, encrypt the
payload, push, save. Returns the metadata projection and the new state. -/
def addCredential (s : StoreState) (siteId : String) (serviceType : ServiceType)
    (plainData : PlainCredentialData) (loginUrl : Option String)
    (selectors : Option Selectors) (now : String) : CredentialMetadata × StoreState :=
  let es := encrypt s plainData
  let stored : StoredCredential :=
    { id := "uuid-" ++ toString es.2.uuidCtr
      siteId := siteId
      serviceType := serviceType
      loginUrl := loginUrl
      selectors := selectors
      active := true
      createdAt := now
      updatedAt := now
      encryptedData := es.1 }
  let s2 := { es.2 with uuidCtr := es.2.uuidCtr + 1, credentials := es.2.credentials ++ [stored] }
  (toMetadata stored, s2.save)

/-- EncryptedStore.getCredential: linear scan, then decrypt; a decryption
failure propagates as the thrown error. -/
def getCredential (s : StoreState) (siteId : String) :
    Except String (Option (CredentialMetadata × PlainCredentialData)) :=
  match findCred siteId s.credentials with
  | none => Except.ok none
  | some stored =>
    (decrypt stored.encryptedData s.masterKey).map (fun d => some (toMetadata stored, d))

/-- EncryptedStore.listCredentials: the metadata projection of the vector. -/
def listCredentials (s : StoreState) : List CredentialMetadata :=
  s.credentials.map toMetadata

/-- EncryptedStore.removeCredential: false and untouched state when the site
is absent; otherwise splice one entry out and save. -/
def removeCredential (s : StoreState) (siteId : String) : Bool × StoreState :=
  match findCredIdx siteId s.credentials 0 with
  | none => (false, s)
  | some idx => (true, StoreState.save { s with credentials := spliceAt idx s.credentials })

/-- EncryptedStore.toggleActive: false and untouched state when the site is
absent; otherwise update the flag and updatedAt in place and save. -/
def toggleActive (s : StoreState) (siteId : String) (active : Bool) (now : String) :
    Bool × StoreState :=
  match findCredIdx siteId s.credentials 0 with
  | none => (false, s)
  | some idx =>
    (true, StoreState.save
      { s with credentials :=
          modifyAt idx (fun c => { c with active := active, updatedAt := now }) s.credentials })

/-- All blobs in the store were produced under the store's current master key
(true of every state reachable through addCredential under a fixed key). -/
def wellKeyed (s : StoreState) : Bool :=
  s.credentials.all (fun c => c.encryptedData.key = s.masterKey)

/-- One audit.log call issued by a tool (action, credentialId, result, botId,
details), without the ambient timestamp. -/
structure AuditCall where
  action : String
  credentialId : String
  result : String
  botId : Option String
  details : Option String
deriving DecidableEq, Repr

/-- String.prototype.includes. -/
def substrB (needle hay : String) : Bool :=
  (List.range (hay.data.length + 1)).any
    (fun i => needle.data.isPrefixOf (hay.data.drop i))

/-- The sanitization pass of vault-api.ts: for each nonempty secret found in
the text, String.prototype.replaceAll it with three asterisks. -/
def scrub (secrets : List String) (text : String) : String :=
  secrets.foldl
    (fun t sec => if sec ≠ "" && substrB sec t then t.replace sec "***" else t) text

/-- One JS object-spread assignment: overwrite the value in place when the
key exists, else append the binding. -/
def objSet (o : Obj) (k v : String) : Obj :=
  if (o.map Prod.fst).contains k
  then o.map (fun kv => if kv.1 = k then (k, v) else kv)
  else o ++ [(k, v)]

/-- The object spread of a followed by b: keys of a in order with b's values
winning, then b's new keys in order. -/
def spreadInto (a b : Obj) : Obj :=
  b.foldl (fun acc kv => objSet acc kv.1 kv.2) a

/-- An entry of the vault_list result. -/
structure ListEntry where
  siteId : String
  serviceType : ServiceType
  active : Bool
deriving DecidableEq, Repr

/-- The vault_list result shape. -/
structure ListResult where
  credentials : List ListEntry
deriving DecidableEq, Repr

/-- vaultList of src/tools/vault-list.ts: the three-field projection of every
credential; never decrypts. -/
def vaultList (s : StoreState) : ListResult :=
  ⟨(listCredentials s).map (fun c => ⟨c.siteId, c.serviceType, c.active⟩)⟩

/-- The lastUsed sub-object of the vault_status result (fields present only
when the underlying entry has them, as JSON.stringify drops undefined). -/
def mkLastUsed (e : Obj) : Obj :=
  (match olookup e "timestamp" with | some t => [("timestamp", t)] | none => [])
  ++ (match olookup e "action" with | some a => [("action", a)] | none => [])
  ++ (match olookup e "result" with | some r => [("result", r)] | none => [])

/-- The vault_status result shape. -/
inductive StatusResult
  | err (message : String)
  | ok (siteId : String) (serviceType : ServiceType) (active : Bool)
      (createdAt updatedAt : String) (auditCount : Nat) (lastUsed : Option Obj)
deriving DecidableEq, Repr

/-- vaultStatus of src/tools/vault-status.ts: find the metadata projection,
count the credential's audit entries, report the last one; never decrypts. -/
def vaultStatus (s : StoreState) (auditEntries : List Obj) (siteId : String) : StatusResult :=
  match (listCredentials s).find? (fun c => c.siteId = siteId) with
  | none => .err ("Credential not found: " ++ siteId)
  | some cred =>
    let entries := getEntriesFilter auditEntries (some siteId)
    let lastEntry := entries.getLast?
    .ok cred.siteId cred.serviceType cred.active cred.createdAt cred.updatedAt
      entries.length (lastEntry.map mkLastUsed)

/-- JSON.stringify of a boolean. -/
def jsonBool (b : Bool) : String := if b then "true" else "false"

/-- JSON.stringify of one vault_list credential entry. -/
def jsonOfListEntry (c : ListEntry) : String :=
  "\x7b\"siteId\":" ++ jsonQuote c.siteId ++ ",\"serviceType\":" ++ jsonQuote c.serviceType.toStr
    ++ ",\"active\":" ++ jsonBool c.active ++ "\x7d"

/-- JSON.stringify of the vault_list result, as the MCP layer sends it. -/
def jsonOfListResult (r : ListResult) : String :=
  "\x7b\"credentials\":[" ++ String.intercalate "," (r.credentials.map jsonOfListEntry) ++ "]\x7d"

/-- JSON.stringify of the vault_status result, as the MCP layer sends it. -/
def jsonOfStatusResult : StatusResult → String
  | .err m => "\x7b\"error\":" ++ jsonQuote m ++ "\x7d"
  | .ok siteId serviceType active createdAt updatedAt auditCount lastUsed =>
    "\x7b\"siteId\":" ++ jsonQuote siteId
      ++ ",\"serviceType\":" ++ jsonQuote serviceType.toStr
      ++ ",\"active\":" ++ jsonBool active
      ++ ",\"createdAt\":" ++ jsonQuote createdAt
      ++ ",\"updatedAt\":" ++ jsonQuote updatedAt
      ++ ",\"auditCount\":" ++ toString auditCount
      ++ ",\"lastUsed\":" ++ (match lastUsed with
          | none => "null"
          | some e => stringifyFlatObj e)
      ++ "\x7d"

/-- The options object handed to fetch. -/
structure FetchOptions where
  method : String
  headers : Obj
  body : Option String
deriving DecidableEq, Repr

/-- The vault_api_request result shape. -/
inductive ApiResult
  | success (httpStatus : Nat) (body : String)
  | failure (message : String)
deriving DecidableEq, Repr

/-- What one vaultApiRequest call did: its result, the audit.log calls it
issued, and the outbound request it handed to fetch, if any. -/
structure ApiOutcome where
  result : ApiResult
  audit : List AuditCall
  sent : Option (String × FetchOptions)
deriving DecidableEq, Repr

/-- vaultApiRequest of src/tools/vault-api.ts: look up and decrypt, check
active and service type, spread the stored headers then the caller headers,
fetch, scrub every nonempty stored secret from the body or the transport
error, audit, return. The network is the fetchFn oracle (ok is a response,
error a thrown transport failure). -/
def vaultApiFound (fetchFn : String → FetchOptions → Except String (Nat × String))
    (service url method : String) (body : Option String) (headers : Option Obj)
    (m : CredentialMetadata) (d : PlainCredentialData) : ApiOutcome :=
  if m.active = false then
    ⟨.failure ("Credential is inactive: " ++ service),
      [⟨"credential.used", service, "failure", some "claude", some "Credential is inactive"⟩],
      none⟩
  else if m.serviceType ≠ ServiceType.api_key then
    ⟨.failure (service ++ " is not an api_key credential. Use vault_login instead."),
      [⟨"credential.used", service, "failure", some "claude", some "Not an api_key credential"⟩],
      none⟩
  else
    let storedHeaders := d.headers.getD []
    let mergedHeaders := spreadInto storedHeaders (headers.getD [])
    let secrets :=
      (match d.apiKey with
        | some k => if k ≠ "" then [k] else []
        | none => [])
      ++ storedHeaders.map Prod.snd
    let fetchOptions : FetchOptions :=
      ⟨method, mergedHeaders, if truthy body ∧ method ≠ "GET" then body else none⟩
    match fetchFn url fetchOptions with
    | Except.ok r =>
      let responseBody := scrub secrets r.2
      ⟨.success r.1 responseBody,
        [⟨"credential.used", service, "success", some "claude",
          some (method ++ " " ++ url ++ " → " ++ toString r.1)⟩],
        some (url, fetchOptions)⟩
    | Except.error errText =>
      let msg := scrub secrets errText
      ⟨.failure msg,
        [⟨"credential.used", service, "failure", some "claude", some msg⟩],
        some (url, fetchOptions)⟩

/-- vaultApiRequest of src/tools/vault-api.ts: look up and decrypt (a
decryption failure propagates as the thrown error), then hand over to the
checked part. -/
def vaultApiRequest (s : StoreState)
    (fetchFn : String → FetchOptions → Except String (Nat × String))
    (service url method : String) (body : Option String) (headers : Option Obj) :
    Except String ApiOutcome :=
  match getCredential s service with
  | Except.error e => Except.error e
  | Except.ok none =>
    Except.ok ⟨.failure ("Credential not found: " ++ service),
      [⟨"credential.used", service, "failure", some "claude", some "Credential not found"⟩], none⟩
  | Except.ok (some (m, d)) => Except.ok (vaultApiFound fetchFn service url method body headers m d)

/-- The login recipe handed to the browser adapter. -/
structure LoginRecipe where
  loginUrl : String
  emailSelector : String
  passwordSelector : String
  submitSelector : String
deriving DecidableEq, Repr

/-- What the browser adapter reports back. -/
structure BridgeResult where
  success : Bool
  pageTitle : String
  message : String
deriving DecidableEq, Repr

/-- The vault_login result shape (page_title absent on precondition failures). -/
structure LoginOutcome where
  status : String
  pageTitle : Option String
  message : String
deriving DecidableEq, Repr

/-- What one vaultLogin call did: its result, the audit.log calls it issued,
and the performLogin calls it handed to the browser adapter. -/
structure LoginRun where
  outcome : LoginOutcome
  audit : List AuditCall
  bridgeCalls : List (LoginRecipe × String × String)
deriving DecidableEq, Repr

/-- vaultLogin of src/tools/vault-login.ts: look up and decrypt, then the
four precondition checks in source order, each failing with one failure
audit entry and no bridge call; when all pass, drive the bridge once and
audit its success flag. -/
def vaultLoginFound (bridge : LoginRecipe → String → String → BridgeResult)
    (siteId : String) (m : CredentialMetadata) (d : PlainCredentialData) : LoginRun :=
  if m.active = false then
    ⟨⟨"failure", none, "Credential is inactive: " ++ siteId⟩,
      [⟨"credential.used", siteId, "failure", some "claude", some "Credential is inactive"⟩], []⟩
  else if m.serviceType ≠ ServiceType.web_login then
    ⟨⟨"failure", none, siteId ++ " is not a web_login credential. Use vault_api_request instead."⟩,
      [⟨"credential.used", siteId, "failure", some "claude", some "Not a web_login credential"⟩], []⟩
  else if truthy m.loginUrl = false || m.selectors.isNone then
    ⟨⟨"failure", none, siteId ++ " is missing loginUrl or selectors configuration"⟩,
      [⟨"credential.used", siteId, "failure", some "claude", some "Missing login URL or selectors"⟩], []⟩
  else
    let sel := m.selectors.getD ⟨"", "", ""⟩
    let recipe : LoginRecipe := ⟨m.loginUrl.getD "", sel.email, sel.password, sel.submit⟩
    let email := (d.email).getD ""
    let password := (d.password).getD ""
    let r := bridge recipe email password
    ⟨⟨if r.success then "success" else "failure", some r.pageTitle, r.message⟩,
      [⟨"credential.used", siteId, if r.success then "success" else "failure",
        some "claude", some r.message⟩],
      [(recipe, email, password)]⟩

/-- vaultLogin of src/tools/vault-login.ts: look up and decrypt (a decryption
failure propagates as the thrown error), then hand over to the checked part. -/
def vaultLogin (s : StoreState) (bridge : LoginRecipe → String → String → BridgeResult)
    (siteId : String) : Except String LoginRun :=
  match getCredential s siteId with
  | Except.error e => Except.error e
  | Except.ok none =>
    Except.ok ⟨⟨"failure", none, "Credential not found: " ++ siteId⟩,
      [⟨"credential.used", siteId, "failure", some "claude", some "Credential not found"⟩], []⟩
  | Except.ok (some (m, d)) => Except.ok (vaultLoginFound bridge siteId m d)

/-- The spec's precondition order for login (section 4.4): credential exists;
credential is active; service-type is web_login; login_url and selectors are
set — with the textual reason each failure audits. Written from the spec to
be compared with vaultLogin. -/
def loginPrecondFailure (s : StoreState) (siteId : String) : Option String :=
  match findCred siteId s.credentials with
  | none => some "Credential not found"
  | some c =>
    if (toMetadata c).active = false then some "Credential is inactive"
    else if (toMetadata c).serviceType ≠ ServiceType.web_login then
      some "Not a web_login credential"
    else if truthy (toMetadata c).loginUrl = false || (toMetadata c).selectors.isNone then
      some "Missing login URL or selectors"
    else none

/-- The module-level key cache of src/store/keychain.ts. -/
structure KeyState where
  cachedKey : Option (List Nat)
  cachedKeySource : Option String
deriving DecidableEq, Repr

/-- getVaultDir: the data dir, or the home default when absent or empty. -/
def getVaultDir (dataDir : Option String) : String :=
  jsOr dataDir "~/.vault-mcp"

/-- The single string the cache is keyed on: env key, else data dir, else
the literal default (JS truthiness fallbacks). -/
def keySourceOf (envKey dataDir : Option String) : String :=
  jsOr envKey (jsOr dataDir "default")

/-- What one getMasterKey call did: the new cache, the key handed back,
whether it came from the cache, and the key-file write, if any. -/
structure KeyFetchResult where
  state : KeyState
  key : List Nat
  fromCache : Bool
  fsWrite : Option (String × List Nat)
deriving DecidableEq, Repr

/-- getMasterKey of src/store/keychain.ts: return the cache when the source
string matches; else derive from the env var via scrypt, else read the
32-byte key file, else generate, persist and cache a fresh key. The scrypt
derivation, the filesystem and the randomness are oracles. -/
def getMasterKey (scryptFn : String → List Nat) (fs : String → Option (List Nat))
    (fresh : List Nat) (st : KeyState) (envKey dataDir : Option String) : KeyFetchResult :=
  let source := keySourceOf envKey dataDir
  if st.cachedKey.isSome && st.cachedKeySource = some source then
    ⟨st, st.cachedKey.getD [], true, none⟩
  else if truthy envKey then
    let k := scryptFn (envKey.getD "")
    ⟨⟨some k, some source⟩, k, false, none⟩
  else
    let vaultDir := getVaultDir dataDir
    let masterKeyFile := vaultDir ++ "/.master-key"
    match fs masterKeyFile with
    | some content =>
      if content.length = 32 then ⟨⟨some content, some source⟩, content, false, none⟩
      else ⟨⟨some fresh, some source⟩, fresh, false, some (masterKeyFile, fresh)⟩
    | none => ⟨⟨some fresh, some source⟩, fresh, false, some (masterKeyFile, fresh)⟩

/-- The dashboard server's state as the vault_add handshake sees it: the
pending-token map, the resolutions fired so far (token, value — in order),
the store and the audit log. -/
structure GatewayState where
  pending : List String
  resolutions : List (String × String)
  store : StoreState
  auditEntries : List Obj
deriving DecidableEq, Repr

/-- The five-minute timer of onCredentialAdded firing for a token: if the
slot is still pending, remove it, then resolve with the timeout sentinel;
otherwise do nothing. -/
def gatewayTimeout (g : GatewayState) (t : String) : GatewayState :=
  if g.pending.contains t then
    { g with pending := g.pending.erase t, resolutions := g.resolutions ++ [(t, "__timeout__")] }
  else g

/-- The POST api-credentials handler of src/dashboard/server.ts: build the
payload per service type, persist through the store, audit
credential.created, then — only if a pending token matches — remove the slot
and resolve it with the submitted site identifier. -/
def gatewayPost (sha : String → String) (g : GatewayState) (token : Option String)
    (siteId : String) (serviceType : ServiceType)
    (email password apiKey loginUrl : Option String) (selectors : Option Selectors)
    (headerName hdrPre : Option String) (now : String) : GatewayState :=
  let plainData : PlainCredentialData :=
    match serviceType with
    | .api_key =>
      ⟨none, none, apiKey,
        some [(jsOr headerName "Authorization", jsOr hdrPre "Bearer " ++ jsStr apiKey)]⟩
    | .web_login => ⟨email, password, none, none⟩
  let finalSelectors := match serviceType with | .api_key => none | .web_login => selectors
  let store2 := (addCredential g.store siteId serviceType plainData loginUrl finalSelectors now).2
  let audit2 := (logStep sha g.auditEntries
    ⟨"credential.created", siteId, "success", none, some "via dashboard", now⟩).2
  if truthy token && g.pending.contains (token.getD "") then
    let t := token.getD ""
    { g with
        store := store2
        auditEntries := audit2
        pending := g.pending.erase t
        resolutions := g.resolutions ++ [(t, siteId)] }
  else
    { g with store := store2, auditEntries := audit2 }

/-- An event racing against a registered token: the timer firing, or a form
submission arriving. -/
inductive GEvent
  | timeoutFire (token : String)
  | submitPost (token : Option String) (siteId : String) (serviceType : ServiceType)
      (email password apiKey loginUrl : Option String) (selectors : Option Selectors)
      (headerName hdrPre : Option String) (now : String)
deriving Repr

/-- One event of the gateway's message loop. -/
def gstep (sha : String → String) (g : GatewayState) : GEvent → GatewayState
  | .timeoutFire t => gatewayTimeout g t
  | .submitPost token siteId serviceType email password apiKey loginUrl selectors
      headerName hdrPre now =>
    gatewayPost sha g token siteId serviceType email password apiKey loginUrl selectors
      headerName hdrPre now

/-- A sequence of events interleaved after the registration. -/
def gatewayRun (sha : String → String) (g : GatewayState) (evs : List GEvent) : GatewayState :=
  evs.foldl (gstep sha) g

/-- How many times a token has been resolved. -/
def resCount (g : GatewayState) (t : String) : Nat :=
  (g.resolutions.filter (fun r => r.1 = t)).length

/-- The value the waiting vault_add call receives for its token. -/
def resValue (g : GatewayState) (t : String) : Option String :=
  (g.resolutions.find? (fun r => r.1 = t)).map Prod.snd

/-- The vault_add result shape. -/
structure AddResult where
  status : String
  site_id : Option String
  message : String
deriving DecidableEq, Repr

/-- The tail of vaultAdd in src/tools/vault-add.ts: map the value the promise
resolved with to the tool outcome — the timeout sentinel to status timeout,
anything else to status success carrying the value as the site identifier. -/
def vaultAddOutcome (resolved : String) : AddResult :=
  if resolved = "__timeout__" then
    ⟨"timeout", none,
      "Credential form was not submitted within 5 minutes. Try again with vault_add."⟩
  else
    ⟨"success", some resolved,
      "Credential \"" ++ resolved
        ++ "\" has been securely added to the vault. You can now use vault_login or vault_api_request with it."⟩

deriving instance DecidableEq for Except

theorem olookup_append_of_none {a : Obj} {k : String} (b : Obj) (h : olookup a k = none) :
    olookup (a ++ b) k = olookup b k := by
  induction a with
  | nil => rfl
  | cons kv rest ih =>
    obtain ⟨k1, v1⟩ := kv
    by_cases hk : k1 = k
    · simp [olookup, hk] at h
    · simp only [List.cons_append, olookup, if_neg hk] at h ⊢
      exact ih h

theorem olookup_append_of_some {a : Obj} {k v : String} (b : Obj) (h : olookup a k = some v) :
    olookup (a ++ b) k = some v := by
  induction a with
  | nil => simp [olookup] at h
  | cons kv rest ih =>
    obtain ⟨k1, v1⟩ := kv
    by_cases hk : k1 = k
    · simp only [olookup, if_pos hk] at h
      simp only [List.cons_append, olookup, if_pos hk]
      exact h
    · simp only [List.cons_append, olookup, if_neg hk] at h ⊢
      exact ih h

theorem olookup_oerase (o : Obj) (key k : String) (h : k ≠ key) :
    olookup (oerase o key) k = olookup o k := by
  induction o with
  | nil => rfl
  | cons kv rest ih =>
    obtain ⟨k1, v1⟩ := kv
    by_cases hk : k1 = key
    · simp only [oerase, if_pos hk, ih, olookup]
      rw [if_neg (by rw [hk]; exact fun hkk => h hkk.symm)]
    · by_cases hkk : k1 = k
      · simp only [oerase, if_neg hk, olookup, if_pos hkk]
      · simp only [oerase, if_neg hk, olookup, if_neg hkk, ih]

theorem olookup_preEntry_eventId (r : LogReq) (eid ph : String) :
    olookup (preEntry r eid ph) "eventId" = some eid := rfl

theorem olookup_preEntry_prevHash (r : LogReq) (eid ph : String) :
    olookup (preEntry r eid ph) "prevHash" = some ph := rfl

theorem olookup_preEntry_hash (r : LogReq) (eid ph : String) :
    olookup (preEntry r eid ph) "hash" = none := by
  obtain ⟨a, c, res, b, d, t⟩ := r
  cases b <;> cases d <;> rfl

theorem olookup_logStep_hash (sha : String → String) (es : List Obj) (r : LogReq) :
    olookup (logStep sha es r).1 "hash"
      = some (computeHash sha (lastHashOf es)
          (preEntry r (formatEventId (es.length + 1)) (lastHashOf es))) := by
  show olookup (preEntry r _ _ ++ [("hash", _)]) "hash" = _
  rw [olookup_append_of_none _ (olookup_preEntry_hash r _ _)]
  rfl

theorem olookup_logStep_prevHash (sha : String → String) (es : List Obj) (r : LogReq) :
    olookup (logStep sha es r).1 "prevHash" = some (lastHashOf es) := by
  show olookup (preEntry r _ _ ++ [("hash", _)]) "prevHash" = _
  rw [olookup_append_of_some _ (olookup_preEntry_prevHash r _ _)]

theorem olookup_logStep_eventId (sha : String → String) (es : List Obj) (r : LogReq) :
    olookup (logStep sha es r).1 "eventId" = some (formatEventId (es.length + 1)) := by
  show olookup (preEntry r _ _ ++ [("hash", _)]) "eventId" = _
  rw [olookup_append_of_some _ (olookup_preEntry_eventId r _ _)]

/-- The inductive invariant of sequential appends: event ids count positions
one-based, every entry carries a hash field, the head's prevHash is genesis,
and every later prevHash is the previous entry's hash. -/
def ChainInv (es : List Obj) : Prop :=
  (∀ i e, es[i]? = some e →
    olookup e "eventId" = some (formatEventId (i + 1)) ∧ ∃ h, olookup e "hash" = some h) ∧
  (∀ e, es[0]? = some e → olookup e "prevHash" = some "genesis") ∧
  (∀ i p e, es[i]? = some p → es[i + 1]? = some e →
    olookup e "prevHash" = olookup p "hash")

theorem chainInv_nil : ChainInv [] := by
  refine ⟨?_, ?_, ?_⟩ <;> intro i <;> simp

theorem chainInv_step (sha : String → String) {es : List Obj} (r : LogReq)
    (hinv : ChainInv es) : ChainInv (logStep sha es r).2 := by
  obtain ⟨hid, hgen, hchain⟩ := hinv
  have hsplit : ∀ i, ((logStep sha es r).2)[i]? =
      if i < es.length then es[i]? else [(logStep sha es r).1][i - es.length]? := by
    intro i
    show (es ++ [(logStep sha es r).1])[i]? = _
    exact List.getElem?_append
  refine ⟨?_, ?_, ?_⟩
  · intro i e he
    rw [hsplit i] at he
    by_cases hi : i < es.length
    · rw [if_pos hi] at he
      exact hid i e he
    · rw [if_neg hi] at he
      have hi0 : i - es.length = 0 := by
        rcases Nat.lt_or_ge (i - es.length) 1 with h1 | h1
        · omega
        · rw [List.getElem?_eq_none (by simpa using h1)] at he
          exact absurd he (by simp)
      rw [hi0] at he
      have hie : i = es.length := by omega
      simp only [List.getElem?_cons_zero, Option.some.injEq] at he
      subst he
      subst hie
      refine ⟨olookup_logStep_eventId sha es r, _, olookup_logStep_hash sha es r⟩
  · intro e he
    rw [hsplit 0] at he
    by_cases h0 : 0 < es.length
    · rw [if_pos h0] at he
      exact hgen e he
    · rw [if_neg h0] at he
      have hes : es = [] := List.eq_nil_of_length_eq_zero (by omega)
      subst hes
      simp only [List.length_nil, Nat.sub_zero, List.getElem?_cons_zero,
        Option.some.injEq] at he
      subst he
      have := olookup_logStep_prevHash sha [] r
      simpa [lastHashOf] using this
  · intro i p e hp he
    rw [hsplit i] at hp
    rw [hsplit (i + 1)] at he
    by_cases hi1 : i + 1 < es.length
    · rw [if_pos hi1] at he
      rw [if_pos (by omega)] at hp
      exact hchain i p e hp he
    · rw [if_neg hi1] at he
      have hi1e : i + 1 - es.length = 0 := by
        rcases Nat.lt_or_ge (i + 1 - es.length) 1 with h1 | h1
        · omega
        · rw [List.getElem?_eq_none (by simpa using h1)] at he
          exact absurd he (by simp)
      have hie : i + 1 = es.length := by
        have : i + 1 ≤ es.length := by
          by_contra hcon
          have hbig : 1 ≤ i + 1 - es.length := by omega
          omega
        omega
      rw [hi1e] at he
      simp only [List.getElem?_cons_zero, Option.some.injEq] at he
      subst he
      rw [if_pos (by omega)] at hp
      rw [olookup_logStep_prevHash sha es r]
      obtain ⟨-, h0, hhp⟩ := hid i p hp
      have hlast : es.getLast? = some p := by
        rw [List.getLast?_eq_getElem?]
        have : es.length - 1 = i := by omega
        rw [this]
        exact hp
      have hlh : lastHashOf es = h0 := by
        rw [lastHashOf, hlast]
        show jsStr (olookup p "hash") = h0
        rw [hhp]
        rfl
      rw [hlh, hhp]

theorem chainInv_fold (sha : String → String) :
    ∀ (reqs : List LogReq) (es : List Obj), ChainInv es →
      ChainInv (reqs.foldl (fun es r => (logStep sha es r).2) es) := by
  intro reqs
  induction reqs with
  | nil => intro es h; exact h
  | cons r rest ih =>
    intro es h
    exact ih _ (chainInv_step sha r h)

/-- C4: after any sequence of sequential append calls starting from an empty
audit log, the head entry's prevHash is the literal genesis, every later
entry's prevHash equals the previous entry's hash, and every entry's eventId
is the text evt_ followed by its 1-based index zero-padded to three digits. -/
theorem audit_append_chain_invariant (sha : String → String) (reqs : List LogReq) :
    (∀ e, (runLog sha reqs)[0]? = some e → olookup e "prevHash" = some "genesis") ∧
    (∀ i p e, (runLog sha reqs)[i]? = some p → (runLog sha reqs)[i + 1]? = some e →
      olookup e "prevHash" = olookup p "hash") ∧
    (∀ i e, (runLog sha reqs)[i]? = some e →
      olookup e "eventId" = some ("evt_" ++ padStart 3 '0' (toString (i + 1)))) := by
  have hinv : ChainInv (runLog sha reqs) := chainInv_fold sha reqs [] chainInv_nil
  obtain ⟨hid, hgen, hchain⟩ := hinv
  exact ⟨hgen, hchain, fun i e he => (hid i e he).1⟩

def c4reqA : LogReq := ⟨"credential.created", "github", "success", none, none, "T1"⟩

def c4reqB : LogReq := ⟨"credential.used", "github", "success", some "claude", none, "T2"⟩

def c4log : List Obj := runLog shaId [c4reqA, c4reqB]

def c4p : Obj := c4log.getD 0 []

def c4e : Obj := c4log.getD 1 []

theorem audit_append_chain_invariant_witness :
    olookup c4p "prevHash" = some "genesis" ∧
    olookup c4e "prevHash" = olookup c4p "hash" ∧
    olookup c4e "eventId" = some "evt_002" :=
  ⟨(audit_append_chain_invariant shaId [c4reqA, c4reqB]).1 c4p rfl,
   (audit_append_chain_invariant shaId [c4reqA, c4reqB]).2.1 0 c4p c4e rfl rfl,
   (audit_append_chain_invariant shaId [c4reqA, c4reqB]).2.2 1 c4e rfl⟩

theorem verifyFrom_cons_none {sha : String → String} {ph : Option String} {j : Nat}
    {e : Obj} {rest : List Obj} (h : verifyFrom sha ph j (e :: rest) = none) :
    olookup e "prevHash" = ph ∧
    olookup e "hash" = some (computeHash sha (jsStr (olookup e "prevHash")) (oerase e "hash")) ∧
    verifyFrom sha (olookup e "hash") (j + 1) rest = none := by
  by_cases h1 : olookup e "prevHash" = ph
  · by_cases h2 : olookup e "hash"
        = some (computeHash sha (jsStr (olookup e "prevHash")) (oerase e "hash"))
    · refine ⟨h1, h2, ?_⟩
      rw [verifyFrom, if_neg (by simpa using h1), if_neg (by simpa using h2)] at h
      exact h
    · rw [verifyFrom, if_neg (by simpa using h1), if_pos (by simpa using h2)] at h
      exact absurd h (by simp)
  · rw [verifyFrom, if_pos (by simpa using h1)] at h
    exact absurd h (by simp)

theorem verifyFrom_valid_at (sha : String → String) :
    ∀ (l : List Obj) (j : Nat) (ph : Option String) (i : Nat) (x : Obj),
      verifyFrom sha ph j l = none → l[i]? = some x →
      olookup x "hash"
        = some (computeHash sha (jsStr (olookup x "prevHash")) (oerase x "hash")) := by
  intro l
  induction l with
  | nil => intro j ph i x _ hx; simp at hx
  | cons e rest ih =>
    intro j ph i x hv hx
    obtain ⟨h1, h2, h3⟩ := verifyFrom_cons_none hv
    match i, hx with
    | 0, hx =>
      simp only [List.getElem?_cons_zero, Option.some.injEq] at hx
      subst hx
      exact h2
    | i + 1, hx =>
      simp only [List.getElem?_cons_succ] at hx
      exact ih (j + 1) (olookup e "hash") i x h3 hx

theorem verifyFrom_set_fail (sha : String → String) :
    ∀ (l : List Obj) (j : Nat) (ph : Option String) (i : Nat) (x e' : Obj),
      verifyFrom sha ph j l = none → l[i]? = some x →
      (olookup e' "prevHash" ≠ olookup x "prevHash" ∨
        olookup e' "hash"
          ≠ some (computeHash sha (jsStr (olookup e' "prevHash")) (oerase e' "hash"))) →
      verifyFrom sha ph j (l.set i e') = some (j + i) := by
  intro l
  induction l with
  | nil => intro j ph i x e' _ hx; simp at hx
  | cons e rest ih =>
    intro j ph i x e' hv hx hfail
    obtain ⟨h1, h2, h3⟩ := verifyFrom_cons_none hv
    match i, hx with
    | 0, hx =>
      simp only [List.getElem?_cons_zero, Option.some.injEq] at hx
      subst hx
      rw [List.set_cons_zero]
      rcases hfail with hp | hh
      · rw [verifyFrom, if_pos (by simpa using (h1 ▸ hp))]
        simp
      · by_cases hp : olookup e' "prevHash" = ph
        · rw [verifyFrom, if_neg (by simpa using hp), if_pos (by simpa using hh)]
          simp
        · rw [verifyFrom, if_pos (by simpa using hp)]
          simp
    | i + 1, hx =>
      simp only [List.getElem?_cons_succ] at hx
      rw [List.set_cons_succ]
      rw [verifyFrom, if_neg (by simpa using h1), if_neg (by simpa using h2)]
      have hrec := ih (j + 1) (olookup e "hash") i x e' h3 hx hfail
      rw [hrec]
      congr 1
      omega

/-- C3 (amended): on a log that verifies as valid, replacing the entry at
position i by a different entry whose change is confined to a single region —
either only the hash field changed, or only the rest of the entry changed —
makes verifyChain report valid false with brokenAt exactly i, provided the
digest does not collide on the two entry serializations involved. (The claim
as stated, over raw byte edits, fails when the edit breaks JSON syntax: the
scan then throws a parse error instead of reporting — see the
counterexample.) -/
theorem verify_chain_flags_tampered_entry (sha : String → String) (l : List Obj)
    (i : Nat) (x e' : Obj)
    (hv : verifyChainL sha l = ⟨true, none, l.length⟩)
    (hx : l[i]? = some x)
    (hdiff : (oerase e' "hash" = oerase x "hash" ∧ olookup e' "hash" ≠ olookup x "hash") ∨
      (oerase e' "hash" ≠ oerase x "hash" ∧ olookup e' "hash" = olookup x "hash"))
    (hnc : computeHash sha (jsStr (olookup e' "prevHash")) (oerase e' "hash") =
        computeHash sha (jsStr (olookup x "prevHash")) (oerase x "hash") →
      oerase e' "hash" = oerase x "hash") :
    verifyChainL sha (l.set i e') = ⟨false, some i, l.length⟩ := by
  have hnone : verifyFrom sha (some "genesis") 0 l = none := by
    cases hvf : verifyFrom sha (some "genesis") 0 l with
    | none => rfl
    | some k =>
      rw [verifyChainL, hvf] at hv
      exact absurd hv (by simp)
  have hxvalid := verifyFrom_valid_at sha l 0 (some "genesis") i x hnone hx
  have hfail : olookup e' "prevHash" ≠ olookup x "prevHash" ∨
      olookup e' "hash"
        ≠ some (computeHash sha (jsStr (olookup e' "prevHash")) (oerase e' "hash")) := by
    rcases hdiff with ⟨hs, hh⟩ | ⟨hs, hh⟩
    · right
      have hpv : olookup e' "prevHash" = olookup x "prevHash" := by
        rw [← olookup_oerase e' "hash" "prevHash" (by decide), hs,
          olookup_oerase x "hash" "prevHash" (by decide)]
      rw [hpv, hs, ← hxvalid]
      exact hh
    · by_cases hpv : olookup e' "prevHash" = olookup x "prevHash"
      · right
        intro hcon
        have h1 : some (computeHash sha (jsStr (olookup e' "prevHash")) (oerase e' "hash"))
            = some (computeHash sha (jsStr (olookup x "prevHash")) (oerase x "hash")) := by
          rw [← hcon, hh, hxvalid]
        exact hs (hnc (Option.some.inj h1))
      · left
        exact hpv
  have hset := verifyFrom_set_fail sha l 0 (some "genesis") i x e' hnone hx hfail
  rw [verifyChainL, hset]
  simp

def c3reqA : LogReq := ⟨"credential.created", "stripe", "success", none, none, "T1"⟩

def c3reqB : LogReq := ⟨"credential.used", "stripe", "failure", some "claude", some "boom", "T2"⟩

def c3chain : List Obj := runLog shaId [c3reqA, c3reqB]

def c3x : Obj := c3chain.getD 1 []

def c3tampered : Obj := oerase c3x "hash" ++ [("hash", "beef")]

set_option maxRecDepth 100000

theorem verify_chain_flags_tampered_entry_witness :
    verifyChainL shaId c3chain = ⟨true, none, c3chain.length⟩ ∧
    verifyChainL shaId (c3chain.set 1 c3tampered) = ⟨false, some 1, c3chain.length⟩ :=
  ⟨by decide,
   verify_chain_flags_tampered_entry shaId c3chain 1 c3x c3tampered (by decide) rfl
     (Or.inl ⟨by decide, by decide⟩) (fun _ => by decide)⟩

def c3file : String := logFile (runLog shaId [c3reqA])

/-- The same on-disk log with the first byte of entry 0's line (the opening
brace) overwritten by the letter X: one byte of one line modified. -/
def c3fileX : String := "X" ++ ⟨c3file.data.drop 1⟩

/-- C3 counterexample: the original log verifies as valid, c3fileX differs
from it in exactly the first byte of the line of entry 0, and verifyChain on
the modified log does not report valid false with brokenAt 0 — it throws a
JSON parse error. -/
theorem verify_chain_single_byte_counterexample :
    verifyChainOnFile shaId c3file = Except.ok ⟨true, none, 1⟩ ∧
    c3fileX.data.length = c3file.data.length ∧
    c3fileX.data.drop 1 = c3file.data.drop 1 ∧
    c3fileX ≠ c3file ∧
    verifyChainOnFile shaId c3fileX = Except.error jsonParseError ∧
    verifyChainOnFile shaId c3fileX ≠ Except.ok ⟨false, some 0, 1⟩ :=
  ⟨by rfl, by rfl, by rfl, by decide, by rfl, by decide⟩

theorem findCred_append_of_none {x : String} {a : List StoredCredential}
    (b : List StoredCredential) (h : findCred x a = none) :
    findCred x (a ++ b) = findCred x b := by
  induction a with
  | nil => rfl
  | cons c rest ih =>
    by_cases hc : c.siteId = x
    · simp [findCred, hc] at h
    · simp only [findCred, if_neg hc] at h
      simp only [List.cons_append, findCred, if_neg hc]
      exact ih h

theorem findCred_mem {x : String} :
    ∀ {l : List StoredCredential} {c : StoredCredential}, findCred x l = some c → c ∈ l := by
  intro l
  induction l with
  | nil => intro c h; simp [findCred] at h
  | cons d rest ih =>
    intro c h
    by_cases hd : d.siteId = x
    · simp only [findCred, if_pos hd, Option.some.injEq] at h
      subst h
      exact List.mem_cons_self d rest
    · simp only [findCred, if_neg hd] at h
      exact List.mem_cons_of_mem d (ih h)

theorem findCredIdx_eq_none {x : String} :
    ∀ (l : List StoredCredential) (i : Nat), findCred x l = none → findCredIdx x l i = none := by
  intro l
  induction l with
  | nil => intro i _; rfl
  | cons c rest ih =>
    intro i h
    by_cases hc : c.siteId = x
    · simp [findCred, hc] at h
    · simp only [findCred, if_neg hc] at h
      simp only [findCredIdx, if_neg hc]
      exact ih (i + 1) h

theorem findCredIdx_append_singleton {x : String} (c : StoredCredential) (hc : c.siteId = x) :
    ∀ (a : List StoredCredential) (i : Nat), findCred x a = none →
      findCredIdx x (a ++ [c]) i = some (i + a.length) := by
  intro a
  induction a with
  | nil =>
    intro i _
    simp only [List.nil_append, findCredIdx, if_pos hc, List.length_nil, Nat.add_zero]
  | cons d rest ih =>
    intro i h
    by_cases hd : d.siteId = x
    · simp [findCred, hd] at h
    · simp only [findCred, if_neg hd] at h
      rw [List.cons_append, findCredIdx, if_neg hd, ih (i + 1) h]
      congr 1
      simp only [List.length_cons]
      omega

theorem spliceAt_append (c : StoredCredential) :
    ∀ (a : List StoredCredential), spliceAt a.length (a ++ [c]) = a := by
  intro a
  induction a with
  | nil => rfl
  | cons d rest ih =>
    rw [List.length_cons, List.cons_append, spliceAt, ih]

/-- The credential record addCredential pushes, written out. -/
def addedCred (s : StoreState) (x : String) (t : ServiceType) (p : PlainCredentialData)
    (lu : Option String) (sel : Option Selectors) (now : String) : StoredCredential :=
  ⟨⟨"uuid-" ++ toString s.uuidCtr, x, t, lu, sel, true, now, now⟩, ⟨s.masterKey, s.ivCtr, p⟩⟩

/-- C7 (amended): under a fixed master key and provided no credential with
site identifier x is already stored (the code accepts duplicates and get
returns the first match, see the counterexample), add then get returns
exactly the payload that was added, and add then remove then get returns
none. -/
theorem add_get_remove_roundtrip (s : StoreState) (x : String) (t : ServiceType)
    (p : PlainCredentialData) (lu : Option String) (sel : Option Selectors) (now : String)
    (hx : findCred x s.credentials = none) :
    getCredential (addCredential s x t p lu sel now).2 x
      = Except.ok (some ((addCredential s x t p lu sel now).1, p)) ∧
    (removeCredential (addCredential s x t p lu sel now).2 x).1 = true ∧
    getCredential (removeCredential (addCredential s x t p lu sel now).2 x).2 x
      = Except.ok none := by
  have hcreds : (addCredential s x t p lu sel now).2.credentials
      = s.credentials ++ [addedCred s x t p lu sel now] := rfl
  have hkey : (addCredential s x t p lu sel now).2.masterKey = s.masterKey := rfl
  have hone : findCred x [addedCred s x t p lu sel now] = some (addedCred s x t p lu sel now) := by
    rw [findCred, if_pos (show (addedCred s x t p lu sel now).siteId = x from rfl)]
  have hidx : findCredIdx x ((addCredential s x t p lu sel now).2.credentials) 0
      = some (0 + s.credentials.length) := by
    rw [hcreds]
    exact findCredIdx_append_singleton (addedCred s x t p lu sel now) rfl s.credentials 0 hx
  refine ⟨?_, ?_, ?_⟩
  · show (match findCred x ((addCredential s x t p lu sel now).2.credentials) with
      | none => Except.ok none
      | some stored =>
        (decrypt stored.encryptedData ((addCredential s x t p lu sel now).2.masterKey)).map
          (fun d => some (toMetadata stored, d))) = _
    rw [hcreds, hkey, findCred_append_of_none _ hx, hone]
    show (decrypt (⟨s.masterKey, s.ivCtr, p⟩ : EncBlob) s.masterKey).map
      (fun d => some (toMetadata (addedCred s x t p lu sel now), d)) = _
    rw [decrypt, if_pos rfl]
    rfl
  · show (match findCredIdx x ((addCredential s x t p lu sel now).2.credentials) 0 with
      | none => (false, (addCredential s x t p lu sel now).2)
      | some idx => (true, StoreState.save
          { (addCredential s x t p lu sel now).2 with
              credentials := spliceAt idx ((addCredential s x t p lu sel now).2.credentials) })).1
      = true
    rw [hidx]
  · show getCredential (match findCredIdx x ((addCredential s x t p lu sel now).2.credentials) 0 with
      | none => (false, (addCredential s x t p lu sel now).2)
      | some idx => (true, StoreState.save
          { (addCredential s x t p lu sel now).2 with
              credentials := spliceAt idx ((addCredential s x t p lu sel now).2.credentials) })).2 x
      = Except.ok none
    rw [hidx]
    show (match findCred x (spliceAt (0 + s.credentials.length)
        ((addCredential s x t p lu sel now).2.credentials)) with
      | none => Except.ok none
      | some stored =>
        (decrypt stored.encryptedData s.masterKey).map (fun d => some (toMetadata stored, d)))
      = Except.ok none
    rw [hcreds, Nat.zero_add, spliceAt_append, hx]

def c7p0 : PlainCredentialData := ⟨some "u@x", some "p0", none, none⟩

def c7p1 : PlainCredentialData := ⟨some "u@x", some "p1", none, none⟩

def c7s1 : StoreState := (addCredential (mkStore "mk") "x" .web_login c7p0 none none "T0").2

def c7s2 : StoreState := (addCredential c7s1 "x" .web_login c7p1 none none "T1").2

theorem add_get_remove_roundtrip_witness :
    getCredential c7s1 "x"
      = Except.ok (some ((addCredential (mkStore "mk") "x" .web_login c7p0 none none "T0").1, c7p0)) ∧
    (removeCredential c7s1 "x").1 = true ∧
    getCredential (removeCredential c7s1 "x").2 "x" = Except.ok none :=
  add_get_remove_roundtrip (mkStore "mk") "x" .web_login c7p0 none none "T0" (by decide)

/-- C7 counterexample: with a credential for site x already stored, add(x, p1)
then get(x) returns the older payload p0, not p1; and add then remove then
get does not return none — remove erases the first duplicate, so get finds
the newer one. -/
theorem add_get_duplicate_counterexample :
    getCredential c7s2 "x"
      = Except.ok (some ((addCredential (mkStore "mk") "x" .web_login c7p0 none none "T0").1, c7p0)) ∧
    c7p0 ≠ c7p1 ∧
    getCredential (removeCredential c7s2 "x").2 "x" ≠ Except.ok none := by
  refine ⟨by decide, by decide, by decide⟩

/-- C10: when no credential with the given site identifier exists, both
removeCredential and toggleActive return false and leave the state exactly
as it was — the in-memory vector untouched and no file write recorded. -/
theorem missing_site_mutations_noop (s : StoreState) (x : String) (b : Bool) (now : String)
    (h : findCred x s.credentials = none) :
    removeCredential s x = (false, s) ∧ toggleActive s x b now = (false, s) := by
  have hidx : findCredIdx x s.credentials 0 = none := findCredIdx_eq_none s.credentials 0 h
  constructor
  · show (match findCredIdx x s.credentials 0 with
      | none => (false, s)
      | some idx => (true, StoreState.save { s with credentials := spliceAt idx s.credentials }))
      = (false, s)
    rw [hidx]
  · show (match findCredIdx x s.credentials 0 with
      | none => (false, s)
      | some idx => (true, StoreState.save { s with credentials := modifyAt idx (fun c => { c with active := b, updatedAt := now }) s.credentials }))
      = (false, s)
    rw [hidx]

theorem missing_site_mutations_noop_witness :
    removeCredential c7s1 "absent" = (false, c7s1) ∧
    toggleActive c7s1 "absent" false "T9" = (false, c7s1) :=
  missing_site_mutations_noop c7s1 "absent" false "T9" (by decide)

theorem getCredential_wellKeyed {s : StoreState} (hk : wellKeyed s = true) (x : String) :
    getCredential s x
      = Except.ok ((findCred x s.credentials).map (fun c => (toMetadata c, c.encryptedData.data))) := by
  show (match findCred x s.credentials with
    | none => Except.ok none
    | some stored =>
      (decrypt stored.encryptedData s.masterKey).map (fun d => some (toMetadata stored, d))) = _
  cases hf : findCred x s.credentials with
  | none => rfl
  | some c =>
    have hc : c ∈ s.credentials := findCred_mem hf
    have hkey : c.encryptedData.key = s.masterKey := by
      rw [wellKeyed, List.all_eq_true] at hk
      exact of_decide_eq_true (hk c hc)
    simp only [decrypt, if_pos hkey]
    rfl

/-- The agent-observable view of a vaultLogin call: the outcome status, the
audit.log calls and the bridge calls (none when the call threw). -/
def loginView (r : Except String LoginRun) :
    Option (String × List AuditCall × List (LoginRecipe × String × String)) :=
  match r with
  | Except.ok run => some (run.outcome.status, run.audit, run.bridgeCalls)
  | Except.error _ => none

/-- C5: whenever some login precondition fails — checked in the spec's order:
credential exists, credential active, service-type web_login, loginUrl and
selectors set — vaultLogin returns a failure outcome, writes exactly one
audit entry with result failure whose details are the textual reason of the
first failed precondition, and never invokes the browser adapter. -/
theorem login_precondition_order_and_audit (s : StoreState)
    (bridge : LoginRecipe → String → String → BridgeResult) (siteId reason : String)
    (hk : wellKeyed s = true)
    (hf : loginPrecondFailure s siteId = some reason) :
    loginView (vaultLogin s bridge siteId)
      = some ("failure",
          [⟨"credential.used", siteId, "failure", some "claude", some reason⟩], []) := by
  rw [loginPrecondFailure] at hf
  cases hc : findCred siteId s.credentials with
  | none =>
    rw [hc] at hf
    replace hf : (some "Credential not found" : Option String) = some reason := hf
    injection hf with hr
    subst hr
    rw [vaultLogin, getCredential_wellKeyed hk, hc]
    rfl
  | some c =>
    rw [hc] at hf
    replace hf : (if (toMetadata c).active = false then some "Credential is inactive"
      else if (toMetadata c).serviceType ≠ ServiceType.web_login then
        some "Not a web_login credential"
      else if truthy (toMetadata c).loginUrl = false || (toMetadata c).selectors.isNone then
        some "Missing login URL or selectors"
      else none) = some reason := hf
    rw [vaultLogin, getCredential_wellKeyed hk, hc]
    show loginView (Except.ok (vaultLoginFound bridge siteId (toMetadata c)
      c.encryptedData.data)) = _
    rw [vaultLoginFound]
    by_cases ha : (toMetadata c).active = false
    · rw [if_pos ha] at hf
      injection hf with hr
      subst hr
      rw [if_pos ha]
      rfl
    · rw [if_neg ha] at hf
      rw [if_neg ha]
      by_cases ht : (toMetadata c).serviceType ≠ ServiceType.web_login
      · rw [if_pos ht] at hf
        injection hf with hr
        subst hr
        rw [if_pos ht]
        rfl
      · rw [if_neg ht] at hf
        rw [if_neg ht]
        by_cases hm : (decide (truthy (toMetadata c).loginUrl = false)
            || (toMetadata c).selectors.isNone) = true
        · rw [if_pos hm] at hf
          injection hf with hr
          subst hr
          rw [if_pos hm]
          rfl
        · rw [if_neg hm] at hf
          exact absurd hf (by simp)

def c5s : StoreState := mkStore "k5"

def c5bridge : LoginRecipe → String → String → BridgeResult := fun _ _ _ => ⟨false, "", ""⟩

theorem login_precondition_order_and_audit_witness :
    loginView (vaultLogin c5s c5bridge "gh")
      = some ("failure",
          [⟨"credential.used", "gh", "failure", some "claude", some "Credential not found"⟩], []) :=
  login_precondition_order_and_audit c5s c5bridge "gh" "Credential not found" (by decide) (by decide)

theorem olookup_eq_none_of_not_mem {o : Obj} {k : String} (h : k ∉ o.map Prod.fst) :
    olookup o k = none := by
  induction o with
  | nil => rfl
  | cons kv rest ih =>
    obtain ⟨k1, v1⟩ := kv
    simp only [List.map_cons, List.mem_cons, not_or] at h
    rw [olookup, if_neg (fun he => h.1 he.symm)]
    exact ih h.2

theorem olookup_map_replace_ne {k0 v0 k : String} (hk : k ≠ k0) :
    ∀ o : Obj, olookup (o.map (fun kv => if kv.1 = k0 then (k0, v0) else kv)) k = olookup o k := by
  intro o
  induction o with
  | nil => rfl
  | cons kv rest ih =>
    obtain ⟨k1, v1⟩ := kv
    by_cases h1 : k1 = k0
    · subst h1
      have hne : k1 ≠ k := fun he => hk he.symm
      have hhead : (if ((k1, v1) : String × String).1 = k1 then (k1, v0) else (k1, v1))
          = (k1, v0) := if_pos rfl
      rw [List.map_cons, hhead, olookup, if_neg hne, ih, olookup, if_neg hne]
    · have hhead : (if ((k1, v1) : String × String).1 = k0 then (k0, v0) else (k1, v1))
          = (k1, v1) := if_neg h1
      rw [List.map_cons, hhead, olookup, olookup, ih]

theorem olookup_map_replace_self {k0 v0 : String} :
    ∀ o : Obj, k0 ∈ o.map Prod.fst →
      olookup (o.map (fun kv => if kv.1 = k0 then (k0, v0) else kv)) k0 = some v0 := by
  intro o
  induction o with
  | nil => intro h; simp at h
  | cons kv rest ih =>
    obtain ⟨k1, v1⟩ := kv
    intro h
    by_cases h1 : k1 = k0
    · subst h1
      have hhead : (if ((k1, v1) : String × String).1 = k1 then (k1, v0) else (k1, v1))
          = (k1, v0) := if_pos rfl
      rw [List.map_cons, hhead, olookup, if_pos rfl]
    · simp only [List.map_cons, List.mem_cons] at h
      rcases h with h | h
      · exact absurd h.symm h1
      · have hhead : (if ((k1, v1) : String × String).1 = k0 then (k0, v0) else (k1, v1))
            = (k1, v1) := if_neg h1
        rw [List.map_cons, hhead, olookup, if_neg h1]
        exact ih h

theorem olookup_objSet (o : Obj) (k0 v0 k : String) :
    olookup (objSet o k0 v0) k = if k = k0 then some v0 else olookup o k := by
  by_cases hmem : (o.map Prod.fst).contains k0
  · rw [objSet, if_pos hmem]
    by_cases hk : k = k0
    · subst hk
      rw [if_pos rfl]
      exact olookup_map_replace_self o (List.mem_of_elem_eq_true hmem)
    · rw [if_neg hk]
      exact olookup_map_replace_ne hk o
  · rw [objSet, if_neg hmem]
    by_cases hk : k = k0
    · subst hk
      rw [if_pos rfl]
      rw [olookup_append_of_none _ (olookup_eq_none_of_not_mem
        (fun hmm => hmem (List.elem_eq_true_of_mem hmm)))]
      rw [olookup, if_pos rfl]
    · rw [if_neg hk]
      cases h2 : olookup o k with
      | some v => exact olookup_append_of_some _ h2
      | none =>
        rw [olookup_append_of_none _ h2, olookup, if_neg (fun he => hk he.symm)]
        rfl

theorem olookup_spreadInto {k : String} :
    ∀ (b a : Obj), (b.map Prod.fst).Nodup →
      olookup (spreadInto a b) k
        = match olookup b k with
          | some v => some v
          | none => olookup a k := by
  intro b
  induction b with
  | nil => intro a _; rfl
  | cons kv bs ih =>
    obtain ⟨k1, v1⟩ := kv
    intro a hnd
    simp only [List.map_cons, List.nodup_cons] at hnd
    have hstep : spreadInto a ((k1, v1) :: bs) = spreadInto (objSet a k1 v1) bs := rfl
    rw [hstep, ih (objSet a k1 v1) hnd.2]
    by_cases hk : k = k1
    · subst hk
      have hnone : olookup bs k = none := olookup_eq_none_of_not_mem hnd.1
      rw [hnone, olookup, if_pos rfl, olookup_objSet, if_pos rfl]
    · rw [olookup, if_neg (fun he => hk he.symm)]
      cases hb : olookup bs k with
      | some v => rfl
      | none =>
        rw [olookup_objSet, if_neg hk]

/-- The outbound request a vaultApiRequest call handed to fetch, if any. -/
def apiSent (r : Except String ApiOutcome) : Option (String × FetchOptions) :=
  match r with
  | Except.ok out => out.sent
  | Except.error _ => none

theorem vaultApiFound_sent (fetchFn : String → FetchOptions → Except String (Nat × String))
    (service url method : String) (body : Option String) (headers : Option Obj)
    (m : CredentialMetadata) (d : PlainCredentialData)
    (hactive : ¬ m.active = false) (htype : ¬ m.serviceType ≠ ServiceType.api_key) :
    (vaultApiFound fetchFn service url method body headers m d).sent
      = some (url, ⟨method, spreadInto (d.headers.getD []) (headers.getD []),
          if truthy body ∧ method ≠ "GET" then body else none⟩) := by
  rw [vaultApiFound, if_neg hactive, if_neg htype]
  cases hfetch : fetchFn url ⟨method, spreadInto (d.headers.getD []) (headers.getD []),
      if truthy body ∧ method ≠ "GET" then body else none⟩ with
  | ok r => simp [hfetch]
  | error e => simp [hfetch]

/-- C1 (amended): for an existing, active api_key credential, the headers on
the outbound request are the caller-supplied headers spread over the stored
headers, and on every conflicting name the caller-supplied value wins (the
source spreads the stored object first, so the later caller spread
overrides). -/
theorem api_request_caller_headers_win (s : StoreState)
    (fetchFn : String → FetchOptions → Except String (Nat × String))
    (service url method : String) (body : Option String) (H : Obj) (c : StoredCredential)
    (hk : wellKeyed s = true)
    (hc : findCred service s.credentials = some c)
    (ha : ¬ (toMetadata c).active = false)
    (ht : (toMetadata c).serviceType = ServiceType.api_key)
    (hnd : (H.map Prod.fst).Nodup) :
    apiSent (vaultApiRequest s fetchFn service url method body (some H))
      = some (url, ⟨method, spreadInto (c.encryptedData.data.headers.getD []) H,
          if truthy body ∧ method ≠ "GET" then body else none⟩) ∧
    (∀ k vS vC, olookup (c.encryptedData.data.headers.getD []) k = some vS →
      olookup H k = some vC →
      olookup (spreadInto (c.encryptedData.data.headers.getD []) H) k = some vC) := by
  constructor
  · rw [vaultApiRequest, getCredential_wellKeyed hk, hc]
    show apiSent (Except.ok (vaultApiFound fetchFn service url method body (some H)
      (toMetadata c) c.encryptedData.data)) = _
    show (vaultApiFound fetchFn service url method body (some H)
      (toMetadata c) c.encryptedData.data).sent = _
    rw [vaultApiFound_sent fetchFn service url method body (some H) (toMetadata c)
      c.encryptedData.data ha (fun hne => hne ht)]
    rfl
  · intro k vS vC hS hC
    rw [olookup_spreadInto H (c.encryptedData.data.headers.getD []) hnd, hC]

def c1s : StoreState :=
  (addCredential (mkStore "mk") "svc" .api_key
    ⟨none, none, some "k123", some [("Authorization", "Bearer k123")]⟩ none none "T0").2

def c1fetch : String → FetchOptions → Except String (Nat × String) :=
  fun _ _ => Except.ok (200, "ok")

/-- C1 counterexample: with stored header Authorization of value Bearer k123
and a caller-supplied Authorization of value evil, the outbound request
carries the caller's value — the stored value does not win on conflict. -/
theorem api_request_stored_wins_counterexample :
    apiSent (vaultApiRequest c1s c1fetch "svc" "https://api.example.com" "GET" none
        (some [("Authorization", "evil")]))
      = some ("https://api.example.com", ⟨"GET", [("Authorization", "evil")], none⟩) ∧
    (c1s.credentials.map (fun c => c.encryptedData.data.headers))
      = [some [("Authorization", "Bearer k123")]] ∧
    ("evil" : String) ≠ "Bearer k123" := by
  refine ⟨by decide, by decide, by decide⟩

theorem api_request_caller_headers_win_witness :
    apiSent (vaultApiRequest c1s c1fetch "svc" "https://api.example.com" "GET" none
        (some [("Authorization", "evil")]))
      = some ("https://api.example.com",
          ⟨"GET", spreadInto [("Authorization", "Bearer k123")] [("Authorization", "evil")],
            none⟩) ∧
    olookup (spreadInto [("Authorization", "Bearer k123")] [("Authorization", "evil")])
        "Authorization" = some "evil" := by
  have h := api_request_caller_headers_win c1s c1fetch "svc" "https://api.example.com" "GET"
    none [("Authorization", "evil")]
    ⟨⟨"uuid-0", "svc", .api_key, none, none, true, "T0", "T0"⟩,
      ⟨"mk", 0, ⟨none, none, some "k123", some [("Authorization", "Bearer k123")]⟩⟩⟩
    (by decide) (by decide) (by decide) (by decide) (by decide)
  exact ⟨h.1, h.2 "Authorization" "Bearer k123" "evil" (by decide) (by decide)⟩

/-- A hypothetical store agreeing with s on all metadata but holding
arbitrarily rewritten secret payloads. -/
def rewriteSecret (f : PlainCredentialData → PlainCredentialData)
    (c : StoredCredential) : StoredCredential :=
  { c with encryptedData := { c.encryptedData with data := f c.encryptedData.data } }

def mapPayloads (f : PlainCredentialData → PlainCredentialData) (s : StoreState) : StoreState :=
  { s with credentials := s.credentials.map (rewriteSecret f) }

theorem listCredentials_mapPayloads (f : PlainCredentialData → PlainCredentialData)
    (s : StoreState) : listCredentials (mapPayloads f s) = listCredentials s := by
  show (s.credentials.map (rewriteSecret f)).map toMetadata = s.credentials.map toMetadata
  rw [List.map_map]
  rfl

/-- C2 (amended): the results of list() and status() are functions of the
metadata and the audit log alone — rewriting every secret payload arbitrarily
does not change either result. Hence their JSON serializations contain no
text derived from any secret; a stored secret can occur as a substring only
by colliding with metadata-derived text, as in the counterexample where the
password equals the site identifier. -/
theorem list_status_independent_of_secrets (f : PlainCredentialData → PlainCredentialData)
    (s : StoreState) (auditEntries : List Obj) (x : String) :
    vaultList (mapPayloads f s) = vaultList s ∧
    vaultStatus (mapPayloads f s) auditEntries x = vaultStatus s auditEntries x := by
  constructor
  · show (⟨(listCredentials (mapPayloads f s)).map _⟩ : ListResult) = ⟨(listCredentials s).map _⟩
    rw [listCredentials_mapPayloads]
  · show (match (listCredentials (mapPayloads f s)).find? (fun c => c.siteId = x) with
      | none => StatusResult.err ("Credential not found: " ++ x)
      | some cred => _) = _
    rw [listCredentials_mapPayloads]
    rfl

def c2s : StoreState :=
  (addCredential (mkStore "mk") "abc" .web_login ⟨some "e@x", some "abc", none, none⟩
    none none "T0").2

/-- C2 counterexample: a credential whose stored password equals its site
identifier; the JSON serializations of both the list() and the status()
results contain the password as a substring. -/
theorem list_status_secret_substring_counterexample :
    (c2s.credentials.map (fun c => c.encryptedData.data.password)) = [some "abc"] ∧
    substrB "abc" (jsonOfListResult (vaultList c2s)) = true ∧
    substrB "abc" (jsonOfStatusResult (vaultStatus c2s [] "abc")) = true := by
  refine ⟨by decide, by decide, by decide⟩

/-- C6 (amended): the cache is a single slot keyed by the one source string
env_key or-else data_dir or-else the literal default — not by the
(env_key, data_dir) pair. A call is served from the cache exactly when a key
is cached and the cached source equals the current source string; so two
calls whose pairs differ only in data_dir while the env key is set share the
cached key (see the counterexample). -/
theorem master_key_cache_hit_iff (scryptFn : String → List Nat)
    (fs : String → Option (List Nat)) (fresh : List Nat) (st : KeyState)
    (envKey dataDir : Option String) :
    (getMasterKey scryptFn fs fresh st envKey dataDir).fromCache = true
      ↔ (st.cachedKey.isSome = true
          ∧ st.cachedKeySource = some (keySourceOf envKey dataDir)) := by
  rw [getMasterKey]
  by_cases hhit : st.cachedKey.isSome = true ∧ st.cachedKeySource = some (keySourceOf envKey dataDir)
  · rw [if_pos (by simp [hhit.1, hhit.2])]
    simpa using hhit
  · rw [if_neg (by simpa using hhit)]
    by_cases henv : truthy envKey = true
    · rw [if_pos henv]
      simpa using hhit
    · rw [if_neg henv]
      cases hfs : fs (getVaultDir dataDir ++ "/.master-key") with
      | some content =>
        simp only [hfs]
        by_cases hlen : content.length = 32
        · rw [if_pos hlen]
          simpa using hhit
        · rw [if_neg hlen]
          simpa using hhit
      | none =>
        simp only [hfs]
        simpa using hhit

def c6scrypt : String → List Nat := fun s => [s.length]

def c6fs : String → Option (List Nat) := fun _ => none

def c6call1 : KeyFetchResult := getMasterKey c6scrypt c6fs [7] ⟨none, none⟩ (some "k") (some "/a")

def c6call2 : KeyFetchResult :=
  getMasterKey c6scrypt c6fs [7] c6call1.state (some "k") (some "/b")

/-- C6 counterexample: a first call with pair (k, /a) populates the cache;
a second call with pair (k, /b) — differing in the data_dir component — is
served from the cache and reuses the first call's key, because the cache is
keyed on the env value alone whenever the env variable is set. -/
theorem master_key_cache_pair_counterexample :
    c6call2.fromCache = true ∧ c6call2.key = c6call1.key ∧
    (("k", "/a") : String × String) ≠ ("k", "/b") := by
  refine ⟨by decide, by decide, by decide⟩

theorem resCount_append (rs : List (String × String)) (t2 v t : String) :
    ((rs ++ [(t2, v)]).filter (fun r => r.1 = t)).length
      = (rs.filter (fun r => r.1 = t)).length + (if t2 = t then 1 else 0) := by
  rw [List.filter_append, List.length_append]
  by_cases h : t2 = t <;> simp [h]

/-- The one-shot state of a single token: either still pending and never
resolved, or no longer pending and resolved at most once. -/
def TokInvP (t : String) (pending : List String) (rs : List (String × String)) : Prop :=
  ((rs.filter (fun r => r.1 = t)).length = 0 ∧ pending.count t = 1) ∨
  ((rs.filter (fun r => r.1 = t)).length ≤ 1 ∧ pending.count t = 0)

def TokInv (t : String) (g : GatewayState) : Prop :=
  TokInvP t g.pending g.resolutions

theorem tokInvP_resolve {t : String} (tok v : String) {pending : List String}
    {rs : List (String × String)} (h : TokInvP t pending rs)
    (hc : pending.contains tok = true) :
    TokInvP t (pending.erase tok) (rs ++ [(tok, v)]) := by
  by_cases ht : tok = t
  · subst ht
    have hmem : tok ∈ pending := List.mem_of_elem_eq_true hc
    have hpos : 1 ≤ pending.count tok := List.count_pos_iff.mpr hmem
    rcases h with ⟨hr, hc1⟩ | ⟨-, hc0⟩
    · right
      constructor
      · rw [resCount_append, hr, if_pos rfl]
      · rw [List.count_erase_self, hc1]
    · omega
  · have hne : t ≠ tok := fun he => ht he.symm
    have hres : ((rs ++ [(tok, v)]).filter (fun r => r.1 = t)).length
        = (rs.filter (fun r => r.1 = t)).length := by
      rw [resCount_append, if_neg ht, Nat.add_zero]
    have hcnt : (pending.erase tok).count t = pending.count t :=
      List.count_erase_of_ne hne pending
    rcases h with ⟨hr, hc1⟩ | ⟨hr, hc0⟩
    · left
      exact ⟨by rw [hres, hr], by rw [hcnt, hc1]⟩
    · right
      exact ⟨by rw [hres]; exact hr, by rw [hcnt, hc0]⟩

theorem tokInv_gstep (sha : String → String) (t : String) (g : GatewayState) (ev : GEvent)
    (h : TokInv t g) : TokInv t (gstep sha g ev) := by
  cases ev with
  | timeoutFire t2 =>
    show TokInv t (gatewayTimeout g t2)
    rw [gatewayTimeout]
    by_cases hc : g.pending.contains t2 = true
    · rw [if_pos hc]
      exact tokInvP_resolve t2 "__timeout__" h hc
    · rw [if_neg hc]
      exact h
  | submitPost token siteId serviceType email password apiKey loginUrl selectors headerName hdrPre now =>
    show TokInv t (gatewayPost sha g token siteId serviceType email password apiKey loginUrl
      selectors headerName hdrPre now)
    simp only [gatewayPost]
    by_cases hcond : (truthy token && g.pending.contains (token.getD "")) = true
    · rw [if_pos hcond]
      have hparts : truthy token = true ∧ g.pending.contains (token.getD "") = true := by
        simpa using hcond
      exact tokInvP_resolve (token.getD "") siteId h hparts.2
    · rw [if_neg hcond]
      exact h

theorem tokInv_run (sha : String → String) (t : String) :
    ∀ (evs : List GEvent) (g : GatewayState), TokInv t g → TokInv t (gatewayRun sha g evs) := by
  intro evs
  induction evs with
  | nil => intro g h; exact h
  | cons ev rest ih =>
    intro g h
    exact ih _ (tokInv_gstep sha t g ev h)

/-- C8 (amended): a registered token resolves at most once — whichever of
the timeout and a matching submission runs first removes the pending slot,
so the loser finds no slot and is a no-op on it, and once a resolution for
the token exists the token is no longer pending. The waiting add call maps
the resolved value: the timeout sentinel to status timeout, and a submitted
site identifier v to status success with site_id v — provided v is not
itself the literal sentinel, in which case the call reports timeout even
though the submission won (see C9). -/
theorem pending_token_resolves_at_most_once (sha : String → String) (g : GatewayState)
    (t : String) (evs : List GEvent)
    (h0 : resCount g t = 0) (h1 : g.pending.count t = 1) :
    resCount (gatewayRun sha g evs) t ≤ 1 ∧
    (1 ≤ resCount (gatewayRun sha g evs) t → (gatewayRun sha g evs).pending.count t = 0) ∧
    (vaultAddOutcome "__timeout__").status = "timeout" ∧
    (∀ v, v ≠ "__timeout__" →
      (vaultAddOutcome v).status = "success" ∧ (vaultAddOutcome v).site_id = some v) := by
  have hinv : TokInv t (gatewayRun sha g evs) := tokInv_run sha t evs g (Or.inl ⟨h0, h1⟩)
  refine ⟨?_, ?_, rfl, ?_⟩
  · rw [resCount]
    rcases hinv with ⟨hr, -⟩ | ⟨hr, -⟩
    · omega
    · exact hr
  · intro hge
    rw [resCount] at hge
    rcases hinv with ⟨hr, -⟩ | ⟨-, hc⟩
    · omega
    · exact hc
  · intro v hv
    rw [vaultAddOutcome, if_neg hv]
    exact ⟨rfl, rfl⟩

def c8g0 : GatewayState := ⟨["tok"], [], mkStore "mk", []⟩

def c8evs : List GEvent := [.timeoutFire "tok", .timeoutFire "tok"]

theorem pending_token_resolves_at_most_once_witness :
    resCount (gatewayRun shaId c8g0 c8evs) "tok" ≤ 1 ∧
    (gatewayRun shaId c8g0 c8evs).pending.count "tok" = 0 ∧
    (vaultAddOutcome "__timeout__").status = "timeout" ∧
    (vaultAddOutcome "jira").status = "success" ∧
    (vaultAddOutcome "jira").site_id = some "jira" := by
  have h := pending_token_resolves_at_most_once shaId c8g0 "tok" c8evs (by decide) (by decide)
  exact ⟨h.1, h.2.1 (by decide), h.2.2.1, (h.2.2.2 "jira" (by decide)).1,
    (h.2.2.2 "jira" (by decide)).2⟩

def c8cg : GatewayState := ⟨["tokX"], [], mkStore "mk", []⟩

def c8cg1 : GatewayState :=
  gstep shaId c8cg
    (.submitPost (some "tokX") "__timeout__" .web_login (some "u@x") (some "pw")
      none none none none none "T0")

/-- C8 counterexample: the submission wins the race — its resolution is
recorded before any timeout fires — yet the waiting add call does not return
status success, because the submitted site identifier collides with the
timeout sentinel. -/
theorem add_submission_wins_counterexample :
    c8cg1.resolutions = [("tokX", "__timeout__")] ∧
    (vaultAddOutcome (jsStr (resValue c8cg1 "tokX"))).status = "timeout" ∧
    (vaultAddOutcome (jsStr (resValue c8cg1 "tokX"))).status ≠ "success" := by
  refine ⟨by decide, by decide, by decide⟩

def c9g0 : GatewayState := ⟨["tok9"], [], mkStore "mk", []⟩

def c9g1 : GatewayState :=
  gstep shaId c9g0
    (.submitPost (some "tok9") "__timeout__" .web_login (some "user@x.com") (some "pw")
      none none none none none "T0")

/-- C9: a form submission before the timeout with a matching token and site
identifier equal to the literal timeout sentinel persists the credential,
writes a credential.created audit entry and resolves the slot, yet the
waiting vault_add call reports status timeout instead of success, because
the resolved value collides with the sentinel. -/
theorem timeout_sentinel_collision :
    (c9g1.store.credentials.map (fun c => c.siteId)) = ["__timeout__"] ∧
    (c9g1.store.credentials.map (fun c => c.encryptedData.data.password)) = [some "pw"] ∧
    (c9g1.auditEntries.map (fun e => olookup e "action")) = [some "credential.created"] ∧
    c9g1.pending = [] ∧
    c9g1.resolutions = [("tok9", "__timeout__")] ∧
    (vaultAddOutcome (jsStr (resValue c9g1 "tok9"))).status = "timeout" ∧
    (vaultAddOutcome (jsStr (resValue c9g1 "tok9"))).site_id = none := by
  refine ⟨by decide, by decide, by decide, by decide, by decide, by decide, by decide⟩
